import Mathlib

/-!
# erriter: iterators that can fail

A verification development for the Go package erriter (src/erriter.go).

The package wraps an iterator function f of type
func(yield func(V) bool) error in an object Seq with two fields, f and err.
Both f and yield are Go closures: they may read and write captured variables,
they may read the err field of the object through the pointer they captured,
and they may panic or loop forever.  The embedding therefore passes the mutable
program state explicitly:

* Heap holds the err field of the object and the variables captured by the
  closures (env);
* a Go computation is a function from the heap to either nothing (a panic, or a
  call that never returns) or a result together with the heap it leaves;
* field f is assigned once, by New, and never again, so the pointer to the
  object is the record Seq that carries f.

A producer or consumer is any such function of the heap; this includes closures
that drive the entity again from inside (nestBody, nestAgain). Where a
statement is about what happens inside a callback, the callback is given as a
transition system: control states, and for each state its next Step (a return,
a panic, a call of yield, a call of Error(), an access to captured variables);
runFor is the Go function it stands for, cut off after a number of steps. For
the frame of the methods, SeqValue is the object with both its fields, passed
by value.
-/

namespace Erriter

/-- Go interface type error: nil (none) or an error value of type E. -/
abbrev error (E : Type) := Option E

/-- Mutable program state: field err of the Seq (or Seq2) object, and the
variables captured by the producer and consumer closures. -/
structure Heap (σ E : Type) where
  err : error E
  env : σ
deriving DecidableEq, Repr

/-- A Go computation returning a value of type α: none when it panics or does
not return, otherwise the returned value and the heap it leaves. -/
abbrev Go (σ E α : Type) := Heap σ E → Option (α × Heap σ E)

/-- Pointer to a Seq[V] object (erriter.go, type Seq): the immutable field f;
the mutable field err is Heap.err. -/
structure Seq (σ E V : Type) where
  f : (V → Go σ E Bool) → Go σ E (error E)

/-- Go: func New(f) *Seq[V], return &Seq[V]{f: f}.  Allocates the object next to
the captured variables env; field err gets the zero value nil. -/
def New {σ E V : Type} (f : (V → Go σ E Bool) → Go σ E (error E)) (env : σ) :
    Seq σ E V × Heap σ E :=
  (⟨f⟩, ⟨none, env⟩)

/-- Go: func (s *Seq[V]) Range(yield), s.err = s.f(yield). -/
def Seq.Range {σ E V : Type} (s : Seq σ E V) (yield : V → Go σ E Bool) : Go σ E Unit :=
  fun h =>
    match s.f yield h with
    | none => none
    | some (e, h1) => some ((), { h1 with err := e })

/-- Go: func (s *Seq[V]) Error() error, return s.err. -/
def Seq.Error {σ E V : Type} (_s : Seq σ E V) : Go σ E (error E) :=
  fun h => some (h.err, h)

/-- Pointer to a Seq2[K, V] object (erriter.go, type Seq2). -/
structure Seq2 (σ E K V : Type) where
  f : (K → V → Go σ E Bool) → Go σ E (error E)

/-- Go: func New2(f) *Seq2[K, V], return &Seq2[K, V]{f: f}. -/
def New2 {σ E K V : Type} (f : (K → V → Go σ E Bool) → Go σ E (error E)) (env : σ) :
    Seq2 σ E K V × Heap σ E :=
  (⟨f⟩, ⟨none, env⟩)

/-- Go: func (s *Seq2[K, V]) Range(yield), s.err = s.f(yield). -/
def Seq2.Range {σ E K V : Type} (s : Seq2 σ E K V) (yield : K → V → Go σ E Bool) :
    Go σ E Unit :=
  fun h =>
    match s.f yield h with
    | none => none
    | some (e, h1) => some ((), { h1 with err := e })

/-- Go: func (s *Seq2[K, V]) Error() error, return s.err. -/
def Seq2.Error {σ E K V : Type} (_s : Seq2 σ E K V) : Go σ E (error E) :=
  fun h => some (h.err, h)

/-! ## Producers and consumers of the tests -/

/-- Producer of erriter_test.go, TestSeq case 0, for an arbitrary list:
for _, i := range xs { if !yield(i) { return nil } }; return nil. -/
def emitAll {σ E V : Type} : List V → (V → Go σ E Bool) → Go σ E (error E)
  | [], _ => fun h => some (none, h)
  | x :: xs, yield => fun h =>
    match yield x h with
    | none => none
    | some (true, h1) => emitAll xs yield h1
    | some (false, h1) => some (none, h1)

/-- Producer of erriter_test.go, TestSeq case 1: return e, without calling
yield. -/
def failNow {σ E V : Type} (e : error E) : (V → Go σ E Bool) → Go σ E (error E) :=
  fun _ h => some (e, h)

/-- Loop body of the tests, for value := range seq.Range { res = append(res,
value) }: the captured slice res is the env; the body falls through, so the
yield function returns true. -/
def collect {E V : Type} (value : V) : Go (List V) E Bool :=
  fun h => some (true, { h with env := h.env ++ [value] })

/-- Loop body that also decides whether to go on: the captured slice (env)
records every item handed to the consumer, one entry per call, and the yield
function returns answer seen v, where seen are the items received before (false
stands for a break in the loop body). -/
def observe {E V : Type} (answer : List V → V → Bool) (v : V) : Go (List V) E Bool :=
  fun h => some (answer h.env v, { h with env := h.env ++ [v] })

/-- Go: fmt.Errorf("negative value at index %d: %d", i, v). -/
def negativeValue (i : Nat) (v : Int) : String :=
  "negative value at index " ++ toString i ++ ": " ++ toString v

/-- Producer of ExampleSeq (erriter_test.go), for an arbitrary slice, from
index i on: for i, v := range xs { if v < 0 { return fmt.Errorf(...) };
if !yield(v) { return nil } }; return nil. -/
def exampleFrom {σ : Type} : Nat → List Int → (Int → Go σ String Bool) →
    Go σ String (error String)
  | _, [], _ => fun h => some (none, h)
  | i, v :: vs, yield => fun h =>
    if v < 0 then some (some (negativeValue i v), h)
    else
      match yield v h with
      | none => none
      | some (true, h1) => exampleFrom (i + 1) vs yield h1
      | some (false, h1) => some (none, h1)

/-- Producer of ExampleSeq: the loop starts at index 0. -/
def exampleProducer {σ : Type} (xs : List Int) :
    (Int → Go σ String Bool) → Go σ String (error String) :=
  exampleFrom 0 xs

/-- Captured variables of TestSeq case 2: the counter run of the producer and
the slice res of the loop body. -/
structure RunEnv where
  run : Int
  res : List Int
deriving DecidableEq, Repr

/-- Producer of TestSeq case 2: run++; case 0: return errors.New("error");
case 1: yield(42); return nil; default: panic("Too many runs!"). -/
def flaky (yield : Int → Go RunEnv String Bool) : Go RunEnv String (error String) :=
  fun h =>
    let h1 : Heap RunEnv String := { h with env := { h.env with run := h.env.run + 1 } }
    if h1.env.run = 0 then some (some "error", h1)
    else if h1.env.run = 1 then
      match yield 42 h1 with
      | none => none
      | some (_, h2) => some (none, h2)
    else none

/-- Loop body of TestSeq over the captured variables of case 2:
res = append(res, value). -/
def appendRes (value : Int) : Go RunEnv String Bool :=
  fun h => some (true, { h with env := { h.env with res := h.env.res ++ [value] } })

/-- Test loop of TestSeq: one drive per consumer, for value := range seq.Range
{ ... }, and a call of seq.Error() right after each; returns what the calls of
Error() returned, in order. -/
def drives {σ E V : Type} (s : Seq σ E V) : List (V → Go σ E Bool) → Go σ E (List (error E))
  | [] => fun h => some ([], h)
  | y :: ys => fun h =>
    match s.Range y h with
    | none => none
    | some (_, h1) =>
      match s.Error h1 with
      | none => none
      | some (e, h2) =>
        match drives s ys h2 with
        | none => none
        | some (es, h3) => some (e :: es, h3)

/-- Consumer instrumented for observation: runs step and appends the call (its
argument and the boolean it hands back) to the trace kept in the second
component of the captured variables. -/
def traced {τ E V : Type} (step : V → Go (τ × List (V × Bool)) E Bool) (v : V) :
    Go (τ × List (V × Bool)) E Bool :=
  fun h =>
    match step v h with
    | none => none
    | some (b, h1) => some (b, { h1 with env := (h1.env.1, h1.env.2 ++ [(v, b)]) })

/-- Wrapper of the specification (section 4.1): each time the producer calls
emit(item), the wrapper forwards item to step and returns to the producer what
step returned. -/
def emitWrapper {σ E V : Type} (step : V → Go σ E Bool) (item : V) : Go σ E Bool :=
  fun h =>
    match step item h with
    | none => none
    | some (b, h1) => some (b, h1)

/-- Drive operation as the specification words it (section 4.1): invoke the
producer with the wrapper around step as emit; when the producer returns, its
outcome overwrites lastError. -/
def Seq.RangeSpec {σ E V : Type} (s : Seq σ E V) (step : V → Go σ E Bool) : Go σ E Unit :=
  fun h =>
    match s.f (emitWrapper step) h with
    | none => none
    | some (outcome, h1) => some ((), { err := outcome, env := h1.env })

/-- The single-value entity over items of type K × V built from the uncurried
producer of a Seq2. -/
def Seq2.uncurried {σ E K V : Type} (s : Seq2 σ E K V) : Seq σ E (K × V) :=
  ⟨fun yield => s.f (fun k v => yield (k, v))⟩

/-- Producer of erriter_test.go, TestSeq2 case 0, for the pairs of a map listed
in the order the iteration visits them:
for k, v := range m { if !yield(k, v) { return nil } }; return nil. -/
def emitAll2 {σ E K V : Type} : List (K × V) → (K → V → Go σ E Bool) → Go σ E (error E)
  | [], _ => fun h => some (none, h)
  | (k, v) :: ps, yield => fun h =>
    match yield k v h with
    | none => none
    | some (true, h1) => emitAll2 ps yield h1
    | some (false, h1) => some (none, h1)

/-- Loop body of TestSeq2, res[k] = v: the captured Go map res is the env, a
finite map given by its lookup function. -/
def store {E K V : Type} [DecidableEq K] (k : K) (v : V) : Go (K → Option V) E Bool :=
  fun h => some (true, { h with env := Function.update h.env k (some v) })

/-- Go: map[K]V{}, the empty map. -/
def emptyMap {K V : Type} : K → Option V :=
  fun _ => none

/-- Pairs of the map of TestSeq2 case 0. -/
def testPairs : List (String × Int) :=
  [("one", 1), ("two", 2), ("three", 3)]

/-- Entity of TestSeq2 case 0, with the pairs of the map visited in the order
two, three, one (Go leaves the order of a map iteration open), next to the
empty map res of the test loop. -/
def testSeq2 : Seq2 (String → Option Int) String String Int × Heap (String → Option Int) String :=
  New2 (emitAll2 [("two", 2), ("three", 3), ("one", 1)]) emptyMap

/-- The object a pointer of type *Seq[V] refers to (erriter.go, type Seq
struct): both fields, f and err, are part of the value and can be assigned. -/
structure SeqValue (σ E V : Type) where
  f : (V → Go σ E Bool) → Go σ E (error E)
  err : error E

/-- Range with the object passed by value: Go: s.err = s.f(yield). Takes the
object and the captured variables before the call and returns them as they
are after it. The callbacks run on the heap made of the object's field err and
the captured variables. -/
def SeqValue.Range {σ E V : Type} (v : SeqValue σ E V) (yield : V → Go σ E Bool) (env : σ) :
    Option (SeqValue σ E V × σ) :=
  match v.f yield ⟨v.err, env⟩ with
  | none => none
  | some (e, h1) => some ({ v with err := e }, h1.env)

/-- Error() with the object passed by value: Go: return s.err. Returns the
result and the object as it is after the call. -/
def SeqValue.Error {σ E V : Type} (v : SeqValue σ E V) : error E × SeqValue σ E V :=
  (v.err, v)

/-- The object a pointer of type *Seq2[K, V] refers to (erriter.go, type Seq2
struct): both fields, f and err, are part of the value and can be assigned. -/
structure Seq2Value (σ E K V : Type) where
  f : (K → V → Go σ E Bool) → Go σ E (error E)
  err : error E

/-- Range of Seq2 with the object passed by value: Go: s.err = s.f(yield). -/
def Seq2Value.Range {σ E K V : Type} (v : Seq2Value σ E K V) (yield : K → V → Go σ E Bool)
    (env : σ) : Option (Seq2Value σ E K V × σ) :=
  match v.f yield ⟨v.err, env⟩ with
  | none => none
  | some (e, h1) => some ({ v with err := e }, h1.env)

/-- Error() of Seq2 with the object passed by value: Go: return s.err. -/
def Seq2Value.Error {σ E K V : Type} (v : Seq2Value σ E K V) : error E × Seq2Value σ E K V :=
  (v.err, v)

/-- Non-cooperative producer, as in TestSeq case 2 (yield(42) with the result
dropped), for an arbitrary list and outcome:
for _, x := range xs { yield(x) }; return o. -/
def emitIgnoring {σ E V : Type} : List V → error E → (V → Go σ E Bool) → Go σ E (error E)
  | [], o, _ => fun h => some (o, h)
  | x :: xs, o, yield => fun h =>
    match yield x h with
    | none => none
    | some (_, h1) => emitIgnoring xs o yield h1

/-- Producer instrumented to count its invocations: the counter kept in the
second component of the captured variables goes up by one on entry, then the
producer runs. -/
def counted {τ E V : Type} (f : (V → Go (τ × Nat) E Bool) → Go (τ × Nat) E (error E)) :
    (V → Go (τ × Nat) E Bool) → Go (τ × Nat) E (error E) :=
  fun yield h => f yield { h with env := (h.env.1, h.env.2 + 1) }

/-- Producer of a Seq2 instrumented to count its invocations, as counted. -/
def counted2 {τ E K V : Type}
    (f : (K → V → Go (τ × Nat) E Bool) → Go (τ × Nat) E (error E)) :
    (K → V → Go (τ × Nat) E Bool) → Go (τ × Nat) E (error E) :=
  fun yield h => f yield { h with env := (h.env.1, h.env.2 + 1) }

/-- A computation leaves the invocation counter as it found it. -/
def LeavesCount {τ E α : Type} (c : Go (τ × Nat) E α) : Prop :=
  ∀ h a h1, c h = some (a, h1) → h1.env.2 = h.env.2

/-- An operation on a Seq after its construction: a call of Range with a
consumer, or a call of Error(). -/
inductive Op (σ E V : Type) where
  | range (yield : V → Go σ E Bool) : Op σ E V
  | error : Op σ E V

/-- Number of Range calls among operations. -/
def Op.ranges {σ E V : Type} : List (Op σ E V) → Nat
  | [] => 0
  | Op.range _ :: ops => Op.ranges ops + 1
  | Op.error :: ops => Op.ranges ops

/-- Performs one operation on s; the value Error() returns is dropped. -/
def Seq.perform {σ E V : Type} (s : Seq σ E V) : Op σ E V → Go σ E Unit
  | Op.range yield => s.Range yield
  | Op.error => fun h =>
    match s.Error h with
    | none => none
    | some (_, h1) => some ((), h1)

/-- Performs operations on s one after the other. -/
def Seq.performAll {σ E V : Type} (s : Seq σ E V) : List (Op σ E V) → Go σ E Unit
  | [] => fun h => some ((), h)
  | op :: ops => fun h =>
    match s.perform op h with
    | none => none
    | some (_, h1) => s.performAll ops h1

/-- An operation on a Seq2 after its construction. -/
inductive Op2 (σ E K V : Type) where
  | range (yield : K → V → Go σ E Bool) : Op2 σ E K V
  | error : Op2 σ E K V

/-- Number of Range calls among operations on a Seq2. -/
def Op2.ranges {σ E K V : Type} : List (Op2 σ E K V) → Nat
  | [] => 0
  | Op2.range _ :: ops => Op2.ranges ops + 1
  | Op2.error :: ops => Op2.ranges ops

/-- Performs one operation on a Seq2; the value Error() returns is dropped. -/
def Seq2.perform {σ E K V : Type} (s : Seq2 σ E K V) : Op2 σ E K V → Go σ E Unit
  | Op2.range yield => s.Range yield
  | Op2.error => fun h =>
    match s.Error h with
    | none => none
    | some (_, h1) => some ((), h1)

/-- Performs operations on a Seq2 one after the other. -/
def Seq2.performAll {σ E K V : Type} (s : Seq2 σ E K V) : List (Op2 σ E K V) → Go σ E Unit
  | [] => fun h => some ((), h)
  | op :: ops => fun h =>
    match s.perform op h with
    | none => none
    | some (_, h1) => s.performAll ops h1

/-- Loop body over captured variables that hold an invocation counter next to
the slice res: res = append(res, value). -/
def collectLeft {E V : Type} (value : V) : Go (List V × Nat) E Bool :=
  fun h => some (true, { h with env := (h.env.1 ++ [value], h.env.2) })

/-- Loop body of a Seq2 over captured variables that hold an invocation counter
next to the slice res: res = append(res, pair). -/
def collectLeft2 {E K V : Type} (k : K) (v : V) : Go (List (K × V) × Nat) E Bool :=
  fun h => some (true, { h with env := (h.env.1 ++ [(k, v)], h.env.2) })

/-- Operations of a sample run on a Seq: Error(), Range, Error(), Range. -/
def sampleOps : List (Op (List Int × Nat) String Int) :=
  [Op.error, Op.range collectLeft, Op.error, Op.range collectLeft]

/-- Operations of a sample run on a Seq2: Error(), Range, Error(). -/
def sampleOps2 : List (Op2 (List (String × Int) × Nat) String String Int) :=
  [Op2.error, Op2.range collectLeft2, Op2.error]

/-- Entity of a sample run: the list producer over [1, 2], counted, next to an
empty slice res and a counter at 0. -/
def sampleSeq : Seq (List Int × Nat) String Int × Heap (List Int × Nat) String :=
  New (counted (emitAll [1, 2])) ([], 0)

/-- Entity of a sample run on a Seq2: the map producer over the pairs of
TestSeq2, counted, next to an empty slice res and a counter at 0. -/
def sampleSeq2 : Seq2 (List (String × Int) × Nat) String String Int ×
    Heap (List (String × Int) × Nat) String :=
  New2 (counted2 (emitAll2 testPairs)) ([], 0)

/-- Loop body that does nothing and answers b. -/
def always {σ E V : Type} (b : Bool) : V → Go σ E Bool :=
  fun _ h => some (b, h)

/-- Captured variables of a producer that drives its own entity: the flag
nested, and seen, what Error() returned to the producer. -/
structure NestEnv where
  nested : Bool
  seen : error String
deriving DecidableEq, Repr

/-- Producer that drives the entity s again from inside:
func(yield func(int) bool) error { if nested { return errors.New("inner") };
nested = true; s.Range(yield); seen = s.Error(); return nil }. -/
def nestBody (s : Seq NestEnv String Int) (yield : Int → Go NestEnv String Bool) :
    Go NestEnv String (error String) :=
  fun h =>
    if h.env.nested then some (some "inner", h)
    else
      match s.Range yield { h with env := { h.env with nested := true } } with
      | none => none
      | some (_, h1) =>
        match s.Error h1 with
        | none => none
        | some (e, h2) => some (none, { h2 with env := { h2.env with seen := e } })

/-- The entity built from nestBody whose captured pointer s is the entity
itself (var s *Seq[int]; s = New(nestBody)): two unfoldings of the body reach
every call the producer makes, the second with nested set. -/
def nestSeq : Seq NestEnv String Int :=
  ⟨nestBody ⟨nestBody ⟨fun _ _ => none⟩⟩⟩

/-- What a closure that uses the entity through Error() alone, and does not
drive it, does next, from a control state of type S: it returns a; it panics;
it calls yield(v) and goes on from the answer; it calls Error() on the entity,
assigns captured variables and goes on, both as the value read says; or it
reads and assigns captured variables and goes on. -/
inductive Step (σ E V α S : Type) where
  | ret (a : α) : Step σ E V α S
  | crash : Step σ E V α S
  | emit (v : V) (next : Bool → S) : Step σ E V α S
  | readError (next : error E → σ → σ × S) : Step σ E V α S
  | modify (next : σ → σ × S) : Step σ E V α S

/-- The Go function a transition system stands for, as a closure that captured
the pointer s and is handed yield, started in a control state and cut off
after n steps: a call that has not returned by then counts as one that does
not return. Loops, unbounded ones included, are cycles of control states. -/
def runFor {σ E V W α S : Type} (s : Seq σ E W) (step : S → Step σ E V α S)
    (yield : V → Go σ E Bool) : Nat → S → Go σ E α
  | 0, _ => fun _ => none
  | n + 1, st => fun h =>
    match step st with
    | Step.ret a => some (a, h)
    | Step.crash => none
    | Step.emit v next =>
      match yield v h with
      | none => none
      | some (b, h1) => runFor s step yield n (next b) h1
    | Step.readError next =>
      match s.Error h with
      | none => none
      | some (e, h1) =>
        runFor s step yield n (next e h1.env).2 { h1 with env := (next e h1.env).1 }
    | Step.modify next =>
      runFor s step yield n (next h.env).2 { h with env := (next h.env).1 }

/-- The consumer callback a transition system stands for: it starts in the
control state cstart v for the item v, is cut off after m steps, and has no
yield to call. -/
def consumerFor {σ E V W T : Type} (s : Seq σ E W) (cstep : T → Step σ E Empty Bool T)
    (cstart : V → T) (m : Nat) : V → Go σ E Bool :=
  fun v => runFor s cstep (fun x => nomatch x) m (cstart v)

/-- Where the run of runFor stands after at most n steps: the heap when the
run is cut off, or has returned, or has panicked, or has called a yield that
does not return. -/
def heapAfter {σ E V W α S : Type} (s : Seq σ E W) (step : S → Step σ E V α S)
    (yield : V → Go σ E Bool) : Nat → S → Heap σ E → Heap σ E
  | 0, _ => fun h => h
  | n + 1, st => fun h =>
    match step st with
    | Step.ret _ => h
    | Step.crash => h
    | Step.emit v next =>
      match yield v h with
      | none => h
      | some (b, h1) => heapAfter s step yield n (next b) h1
    | Step.readError next =>
      match s.Error h with
      | none => h
      | some (e, h1) =>
        heapAfter s step yield n (next e h1.env).2 { h1 with env := (next e h1.env).1 }
    | Step.modify next =>
      heapAfter s step yield n (next h.env).2 { h with env := (next h.env).1 }

/-- A step instrumented for observation: it works on the first component of
the captured variables as before, and a call of Error() appends the value it
returned to the second component. -/
def Step.logged {σ E V α S : Type} : Step σ E V α S → Step (σ × List (error E)) E V α S
  | Step.ret a => Step.ret a
  | Step.crash => Step.crash
  | Step.emit v next => Step.emit v next
  | Step.readError next =>
    Step.readError (fun e st => (((next e st.1).1, st.2 ++ [e]), (next e st.1).2))
  | Step.modify next => Step.modify (fun st => (((next st.1).1, st.2), (next st.1).2))

/-- The stored error is e0 and every reading recorded so far is e0. -/
def Stale {σ E : Type} (e0 : error E) (h : Heap (σ × List (error E)) E) : Prop :=
  h.err = e0 ∧ ∀ r ∈ h.env.2, r = e0

/-- Control states of the producer of TestSeq case 2. -/
inductive FlakyAt where
  | start : FlakyAt
  | fail : FlakyAt
  | item : FlakyAt
  | done : FlakyAt
  | boom : FlakyAt

/-- The producer of TestSeq case 2 step by step: run++, then the switch. -/
def flakyStep : FlakyAt → Step RunEnv String Int (error String) FlakyAt
  | FlakyAt.start =>
    Step.modify (fun env =>
      ({ env with run := env.run + 1 },
        if env.run + 1 = 0 then FlakyAt.fail
        else if env.run + 1 = 1 then FlakyAt.item else FlakyAt.boom))
  | FlakyAt.fail => Step.ret (some "error")
  | FlakyAt.item => Step.emit 42 (fun _ => FlakyAt.done)
  | FlakyAt.done => Step.ret none
  | FlakyAt.boom => Step.crash

/-- Control states of an unbounded generator that calls Error() before each
item. -/
inductive GenAt where
  | read (i : Int) : GenAt
  | send (i : Int) : GenAt
  | stop : GenAt

/-- Unbounded generator: for i := 0; ; i++ { _ = s.Error();
if !yield(i) { return errors.New("new") } }. -/
def genStep : GenAt → Step Unit String Int (error String) GenAt
  | GenAt.read i => Step.readError (fun _ env => (env, GenAt.send i))
  | GenAt.send i => Step.emit i (fun b => if b then GenAt.read (i + 1) else GenAt.stop)
  | GenAt.stop => Step.ret (some "new")

/-- Control states of a consumer that calls Error() and then answers. -/
inductive AskAt where
  | enter (v : Int) : AskAt
  | leave (b : Bool) : AskAt

/-- Consumer: func(v int) bool { _ = s.Error(); return v < 2 }. -/
def askStep : AskAt → Step Unit String Empty Bool AskAt
  | AskAt.enter v => Step.readError (fun _ env => (env, AskAt.leave (decide (v < 2))))
  | AskAt.leave b => Step.ret b

/-- Entity of the unbounded generator, instrumented, cut off after 10 steps. -/
def probeSeq : Seq (Unit × List (error String)) String Int :=
  ⟨fun yield =>
    runFor (⟨fun _ _ => none⟩ : Seq (Unit × List (error String)) String Int)
      (fun st => (genStep st).logged) yield 10 (GenAt.read 0)⟩

/-- Producer that drives the entity s again from inside, over captured variables
that hold the flag nested next to an invocation counter:
func(yield func(int) bool) error { if nested { return errors.New("inner") };
nested = true; s.Range(yield); return nil }. -/
def nestAgain (s : Seq (Bool × Nat) String Int) (yield : Int → Go (Bool × Nat) String Bool) :
    Go (Bool × Nat) String (error String) :=
  fun h =>
    if h.env.1 then some (some "inner", h)
    else
      match s.Range yield { h with env := (true, h.env.2) } with
      | none => none
      | some (_, h1) => some (none, h1)

/-- The entity built from nestAgain, counted, whose captured pointer s is the
entity itself: two unfoldings of the body reach every call the producer
makes, the second with nested set. -/
def nestCounted : Seq (Bool × Nat) String Int :=
  ⟨counted (nestAgain ⟨counted (nestAgain ⟨fun _ _ => none⟩)⟩)⟩

/-- One drive, with a consumer that does nothing. -/
def oneDrive : List (Op (Bool × Nat) String Int) :=
  [Op.range (always true)]

/-! ## Theorems -/

/-- Range returns exactly when the producer call does, and then leaves the heap
of the producer call with its outcome stored in err. -/
theorem Seq.Range_eq_some {σ E V : Type} (s : Seq σ E V) (yield : V → Go σ E Bool)
    (h h2 : Heap σ E) (u : Unit) :
    s.Range yield h = some (u, h2) ↔
      ∃ e h1, s.f yield h = some (e, h1) ∧ h2 = { h1 with err := e } := by
  unfold Seq.Range
  cases hf : s.f yield h with
  | none => simp
  | some r =>
    obtain ⟨e, h1⟩ := r
    constructor
    · intro hr
      simp only [Option.some.injEq, Prod.mk.injEq] at hr
      exact ⟨e, h1, rfl, hr.2.symm⟩
    · rintro ⟨e1, h3, he, rfl⟩
      simp only [Option.some.injEq, Prod.mk.injEq] at he
      obtain ⟨rfl, rfl⟩ := he
      rfl

/-- C1: whenever the producer call f(yield) made by Range returns e, Range
returns too, and Error() afterwards returns exactly e, unwrapped, whatever
error was stored before; the stored error is non-nil exactly when e is.  In
every heap Range can return with, Error() returns e. -/
theorem Range_then_Error {σ E V : Type} (f : (V → Go σ E Bool) → Go σ E (error E))
    (env : σ) (yield : V → Go σ E Bool) (h h1 : Heap σ E) (e : error E)
    (hf : f yield h = some (e, h1)) :
    (∃ h2, (New f env).1.Range yield h = some ((), h2) ∧
      (New f env).1.Error h2 = some (e, h2) ∧ (h2.err ≠ none ↔ e ≠ none)) ∧
    (∀ h2, (New f env).1.Range yield h = some ((), h2) →
      (New f env).1.Error h2 = some (e, h2)) := by
  refine ⟨⟨{ h1 with err := e }, ?_, rfl, Iff.rfl⟩, ?_⟩
  · simp [New, Seq.Range, hf]
  · intro h2 hr
    simp only [New, Seq.Range, hf, Option.some.injEq, Prod.mk.injEq, true_and] at hr
    subst hr
    rfl

/-- C1, at a concrete input: the producer of ExampleSeq over [1, 2, -1, 3],
driven over a heap whose stored error is an older failure. -/
theorem Range_then_Error_witness :
    (∃ h2, (New (exampleProducer [1, 2, -1, 3]) []).1.Range collect ⟨some "old", []⟩ =
        some ((), h2) ∧
      (New (exampleProducer [1, 2, -1, 3]) []).1.Error h2 =
        some (some "negative value at index 2: -1", h2) ∧
      (h2.err ≠ none ↔ some "negative value at index 2: -1" ≠ none)) ∧
    (∀ h2, (New (exampleProducer [1, 2, -1, 3]) []).1.Range collect ⟨some "old", []⟩ =
        some ((), h2) →
      (New (exampleProducer [1, 2, -1, 3]) []).1.Error h2 =
        some (some "negative value at index 2: -1", h2)) :=
  Range_then_Error (exampleProducer [1, 2, -1, 3]) [] collect ⟨some "old", []⟩
    ⟨some "old", [1, 2]⟩ (some "negative value at index 2: -1") (by decide)

/-- C2: an entity fresh from New or New2 reports no error: Error() called
before any Range returns nil. -/
theorem New_Error_nil {σ E V K : Type} (f : (V → Go σ E Bool) → Go σ E (error E))
    (g : (K → V → Go σ E Bool) → Go σ E (error E)) (env : σ) :
    (New f env).1.Error (New f env).2 = some (none, (New f env).2) ∧
    (New2 g env).1.Error (New2 g env).2 = some (none, (New2 g env).2) :=
  ⟨rfl, rfl⟩

/-- One drive followed by Error(): the reading is the outcome of the producer
call. -/
theorem drives_one {σ E V : Type} (s : Seq σ E V) (y : V → Go σ E Bool)
    (h h1 : Heap σ E) (e : error E) (hf : s.f y h = some (e, h1)) :
    drives s [y] h = some ([e], { h1 with err := e }) := by
  simp [drives, Seq.Range, Seq.Error, hf]

/-- Drives split: a run of drives over ys ++ zs is a run over ys followed by a
run over zs from the heap the first run leaves. -/
theorem drives_append {σ E V : Type} (s : Seq σ E V) (ys zs : List (V → Go σ E Bool))
    (h hn : Heap σ E) (es : List (error E)) :
    drives s (ys ++ zs) h = some (es, hn) ↔
      ∃ es0 h0 es1, drives s ys h = some (es0, h0) ∧ es0.length = ys.length ∧
        drives s zs h0 = some (es1, hn) ∧ es = es0 ++ es1 := by
  induction ys generalizing h es with
  | nil =>
    constructor
    · intro hd
      exact ⟨[], h, es, rfl, rfl, hd, rfl⟩
    · rintro ⟨es0, h0, es1, h0eq, _, hz, rfl⟩
      simp only [drives, Option.some.injEq, Prod.mk.injEq] at h0eq
      obtain ⟨rfl, rfl⟩ := h0eq
      simpa using hz
  | cons y ys ih =>
    simp only [List.cons_append, drives, Seq.Error, List.append_eq]
    cases hr : s.Range y h with
    | none => simp
    | some r =>
      obtain ⟨u, h1⟩ := r
      simp only
      constructor
      · intro hc
        cases hd : drives s (ys ++ zs) h1 with
        | none => simp [hd] at hc
        | some r1 =>
          obtain ⟨es2, h3⟩ := r1
          simp only [hd, Option.some.injEq, Prod.mk.injEq] at hc
          obtain ⟨rfl, rfl⟩ := hc
          obtain ⟨es0, h0, es1, hys, hl, hz, rfl⟩ := (ih h1 es2).1 hd
          refine ⟨h1.err :: es0, h0, es1, ?_, by simp [hl], hz, rfl⟩
          simp [hys]
      · rintro ⟨es0, h0, es1, h0eq, hl, hz, rfl⟩
        cases hys : drives s ys h1 with
        | none => simp [hys] at h0eq
        | some r2 =>
          obtain ⟨es2, h3⟩ := r2
          simp only [hys, Option.some.injEq, Prod.mk.injEq] at h0eq
          obtain ⟨rfl, rfl⟩ := h0eq
          have hd := (ih h1 (es2 ++ es1)).2 ⟨es2, h3, es1, hys, by simpa using hl, hz, rfl⟩
          simp [hd]

/-- C3: in a run of successive drives, each followed by Error(), the k-th
reading (k the number of drives ys made before the drive with consumer y) is
the outcome e of the k-th producer call alone: the producer was called on the
heap h0 the earlier drives left and returned e, the reading is e, and had the
earlier drives stored any other error e0, the reading would again be whatever
the producer call returns. -/
theorem drives_kth {σ E V : Type} (s : Seq σ E V) (ys zs : List (V → Go σ E Bool))
    (y : V → Go σ E Bool) (h hn : Heap σ E) (es : List (error E))
    (hd : drives s (ys ++ y :: zs) h = some (es, hn)) :
    ∃ es0 h0 e h1, drives s ys h = some (es0, h0) ∧ s.f y h0 = some (e, h1) ∧
      es[ys.length]? = some e ∧
      (∀ e0 e1 h2, s.f y { h0 with err := e0 } = some (e1, h2) →
        drives s [y] { h0 with err := e0 } = some ([e1], { h2 with err := e1 })) := by
  obtain ⟨es0, h0, es1, hys, hl, hz, rfl⟩ := (drives_append s ys (y :: zs) h hn es).1 hd
  obtain ⟨es2, h3, es3, hy, _, _, rfl⟩ := (drives_append s [y] zs h0 hn es1).1 hz
  simp only [drives, Seq.Error] at hy
  cases hr : s.Range y h0 with
  | none => simp [hr] at hy
  | some r =>
    obtain ⟨u, h4⟩ := r
    obtain ⟨e, h1, hf, rfl⟩ := (Seq.Range_eq_some s y h0 h4 u).1 hr
    simp only [hr, Option.some.injEq, Prod.mk.injEq] at hy
    obtain ⟨rfl, rfl⟩ := hy
    refine ⟨es0, h0, e, h1, hys, hf, ?_, ?_⟩
    · rw [← hl, List.getElem?_append_right (le_refl _)]
      simp
    · intro e0 e1 h2 hf2
      exact drives_one s y _ h2 e1 hf2

/-- C3, on the producer of TestSeq case 2: it fails on its first call and emits
42 on its second; Error() is non-nil after drive 1, nil after drive 2, and the
items consumed are [42]. -/
theorem drives_kth_witness :
    drives (New flaky ⟨-1, []⟩).1 [appendRes, appendRes] (New flaky ⟨-1, []⟩).2 =
      some ([some "error", none], ⟨none, ⟨1, [42]⟩⟩) ∧
    ∃ es0 h0 e h1, drives (New flaky ⟨-1, []⟩).1 [appendRes] (New flaky ⟨-1, []⟩).2 =
        some (es0, h0) ∧ flaky appendRes h0 = some (e, h1) ∧
      [some "error", none][1]? = some e ∧
      (∀ e0 e1 h2, flaky appendRes { h0 with err := e0 } = some (e1, h2) →
        drives (New flaky ⟨-1, []⟩).1 [appendRes] { h0 with err := e0 } =
          some ([e1], { h2 with err := e1 })) :=
  ⟨by decide, drives_kth (New flaky ⟨-1, []⟩).1 [appendRes] [] appendRes
    (New flaky ⟨-1, []⟩).2 ⟨none, ⟨1, [42]⟩⟩ [some "error", none] (by decide)⟩

/-- The list producer driven with the collecting loop body appends the whole
list to the captured slice and returns nil, whatever was stored before. -/
theorem emitAll_collect {E V : Type} (xs acc : List V) (e0 : error E) :
    emitAll xs collect (⟨e0, acc⟩ : Heap (List V) E) = some (none, ⟨e0, acc ++ xs⟩) := by
  induction xs generalizing acc with
  | nil => simp [emitAll]
  | cons x xs ih => simp [emitAll, collect, ih]

/-- C4: the producer that emits the elements of xs in order, driven through
New(producer).Range by a consumer that appends every item and never stops,
makes Range return with exactly xs collected, and Error() is then nil. -/
theorem Range_emitAll_collect {E V : Type} (xs : List V) :
    (New (emitAll xs) []).1.Range collect (New (emitAll xs) []).2 =
      some ((), (⟨none, xs⟩ : Heap (List V) E)) ∧
    (New (emitAll xs) []).1.Error (⟨none, xs⟩ : Heap (List V) E) = some (none, ⟨none, xs⟩) := by
  refine ⟨?_, rfl⟩
  simp [New, Seq.Range, emitAll_collect]

/-- The list [1, 2, 3] of TestSeq case 0: the loop collects [1, 2, 3] and
Error() is nil. -/
theorem Range_emitAll_collect_example :
    (New (emitAll [1, 2, 3]) []).1.Range collect (New (emitAll [1, 2, 3]) []).2 =
      some ((), (⟨none, [1, 2, 3]⟩ : Heap (List Nat) String)) := by
  decide

/-- C5: the producer that returns e at once, driven with any consumer over any
heap: Range returns, the captured variables are untouched (so a consumer that
records its calls has recorded none, and the emissions collected from an empty
slice are empty), and Error() returns exactly e. -/
theorem Range_failNow {σ E V : Type} (e : error E) (yield : V → Go σ E Bool) (env : σ)
    (h : Heap σ E) (answer : List V → V → Bool) :
    (New (failNow e) env).1.Range yield h = some ((), ⟨e, h.env⟩) ∧
    (New (failNow e) env : Seq σ E V × Heap σ E).1.Error ⟨e, h.env⟩ = some (e, ⟨e, h.env⟩) ∧
    (New (failNow e) []).1.Range (observe answer) ⟨none, []⟩ = some ((), ⟨e, []⟩) :=
  ⟨rfl, rfl, rfl⟩

/-- The example producer from index i on, driven with the collecting loop body:
it appends the leading non-negative elements, and fails on the first negative
one, naming its index and value. -/
theorem exampleFrom_collect (xs acc : List Int) (i : Nat) (e0 : error String) :
    exampleFrom i xs collect ⟨e0, acc⟩ = some
      (match xs.dropWhile (fun v => decide (0 ≤ v)) with
        | [] => none
        | v :: _ =>
          some (negativeValue (i + (xs.takeWhile (fun v => decide (0 ≤ v))).length) v),
        ⟨e0, acc ++ xs.takeWhile (fun v => decide (0 ≤ v))⟩) := by
  induction xs generalizing acc i with
  | nil => simp [exampleFrom]
  | cons v vs ih =>
    by_cases hv : v < 0
    · rw [List.takeWhile_cons_of_neg (by simpa using hv),
        List.dropWhile_cons_of_neg (by simpa using hv)]
      simp [exampleFrom, hv]
    · have hv0 : 0 ≤ v := not_lt.mp hv
      rw [List.takeWhile_cons_of_pos (by simpa using hv0),
        List.dropWhile_cons_of_pos (by simpa using hv0)]
      simp [exampleFrom, hv, collect, ih, Nat.add_assoc, Nat.add_comm 1]

/-- No list of non-negative elements that starts xs is longer than the one
takeWhile returns. -/
theorem takeWhile_nonneg_longest (xs p : List Int) (hp : p <+: xs)
    (hall : ∀ v ∈ p, 0 ≤ v) :
    p.length ≤ (xs.takeWhile (fun v => decide (0 ≤ v))).length := by
  induction xs generalizing p with
  | nil =>
    have : p = [] := List.prefix_nil.mp hp
    simp [this]
  | cons x xs ih =>
    cases p with
    | nil => simp
    | cons y ys =>
      obtain ⟨rfl, hys⟩ := List.cons_prefix_cons.mp hp
      have hy : 0 ≤ y := hall y (List.mem_cons_self _ _)
      have := ih ys hys (fun v hv => hall v (List.mem_cons_of_mem _ hv))
      simp [List.takeWhile, hy, this]

/-- When the first negative element of xs is v, at index i, takeWhile stops
right before it. -/
theorem first_negative_split (xs : List Int) (i : Nat) (v : Int) (hi : xs[i]? = some v)
    (hv : v < 0) (hbefore : ∀ j w, j < i → xs[j]? = some w → 0 ≤ w) :
    (xs.takeWhile (fun v => decide (0 ≤ v))).length = i ∧
      (xs.dropWhile (fun v => decide (0 ≤ v))).head? = some v := by
  induction xs generalizing i with
  | nil => simp at hi
  | cons x xs ih =>
    cases i with
    | zero =>
      simp only [List.getElem?_cons_zero, Option.some.injEq] at hi
      subst hi
      simp [List.takeWhile, List.dropWhile, not_le.mpr hv]
    | succ k =>
      have hx : 0 ≤ x := hbefore 0 x (Nat.succ_pos k) (by simp)
      simp only [List.getElem?_cons_succ] at hi
      have := ih k hi (fun j w hj hw => hbefore (j + 1) w (Nat.succ_lt_succ hj) (by simpa using hw))
      simp [List.takeWhile, List.dropWhile, hx, this]

/-- C6: the producer of ExampleSeq over any slice xs, driven by a consumer that
appends every item and never stops: Range returns; the items consumed are the
longest run of non-negative elements xs starts with; Error() is nil exactly
when xs has no negative element; and when the first negative element of xs is
v, at index i, Error() is "negative value at index i: v". -/
theorem Range_exampleProducer (xs : List Int) :
    ∃ h2, (New (exampleProducer xs) []).1.Range collect (New (exampleProducer xs) []).2 =
        some ((), h2) ∧
      h2.env = xs.takeWhile (fun v => decide (0 ≤ v)) ∧
      (h2.env <+: xs ∧ (∀ v ∈ h2.env, 0 ≤ v) ∧
        ∀ p : List Int, p <+: xs → (∀ v ∈ p, 0 ≤ v) → p.length ≤ h2.env.length) ∧
      ((New (exampleProducer xs) []).1.Error h2 = some (none, h2) ↔ ∀ v ∈ xs, 0 ≤ v) ∧
      (∀ (i : Nat) (v : Int), xs[i]? = some v → v < 0 →
        (∀ j w, j < i → xs[j]? = some w → 0 ≤ w) →
        (New (exampleProducer xs) []).1.Error h2 = some (some (negativeValue i v), h2)) := by
  refine ⟨⟨match xs.dropWhile (fun v => decide (0 ≤ v)) with
      | [] => none
      | v :: _ => some (negativeValue (0 + (xs.takeWhile (fun v => decide (0 ≤ v))).length) v),
    [] ++ xs.takeWhile (fun v => decide (0 ≤ v))⟩, ?_, ?_, ⟨?_, ?_, ?_⟩, ?_, ?_⟩
  · simp only [New, Seq.Range, exampleProducer, exampleFrom_collect]
  · simp
  · simpa using List.takeWhile_prefix _
  · intro v hv
    have := List.mem_takeWhile_imp (by simpa using hv)
    simpa using this
  · intro p hp hall
    simpa using takeWhile_nonneg_longest xs p hp hall
  · simp only [Seq.Error, Option.some.injEq, Prod.mk.injEq, and_true]
    cases hd : xs.dropWhile (fun v => decide (0 ≤ v)) with
    | nil =>
      simp only [true_iff]
      intro v hv
      have := List.dropWhile_eq_nil_iff.mp hd v hv
      simpa using this
    | cons w ws =>
      simp only [reduceCtorEq, false_iff]
      intro hall
      have : xs.dropWhile (fun v => decide (0 ≤ v)) = [] :=
        List.dropWhile_eq_nil_iff.mpr (fun v hv => by simpa using hall v hv)
      rw [this] at hd
      exact List.noConfusion hd
  · intro i v hi hv hbefore
    obtain ⟨hlen, hhead⟩ := first_negative_split xs i v hi hv hbefore
    simp only [Seq.Error, Option.some.injEq, Prod.mk.injEq, and_true]
    cases hd : xs.dropWhile (fun v => decide (0 ≤ v)) with
    | nil => simp [hd] at hhead
    | cons w ws =>
      simp only [hd, List.head?_cons, Option.some.injEq] at hhead
      subst hhead
      simp [hlen]

/-- ExampleSeq as run by the test: the values 1 and 2 are consumed, and the
error reads "negative value at index 2: -1". -/
theorem Range_exampleProducer_example :
    (New (exampleProducer [1, 2, -1, 3]) []).1.Range collect
        (New (exampleProducer [1, 2, -1, 3]) []).2 =
      some ((), ⟨some "negative value at index 2: -1", [1, 2]⟩) := by
  decide

/-- C7: the cooperative list producer over a non-empty list, driven by a
consumer that records each call and answers false to the first item it
receives: Range returns, exactly one call was recorded, for the head of the
list, and Error() is nil. -/
theorem Range_early_stop {E V : Type} (x : V) (xs : List V) (answer : List V → V → Bool)
    (e0 : error E) (hstop : answer [] x = false) :
    (New (emitAll (x :: xs)) []).1.Range (observe answer) ⟨e0, []⟩ =
      some ((), ⟨none, [x]⟩) ∧
    (New (emitAll (x :: xs)) []).1.Error (⟨none, [x]⟩ : Heap (List V) E) =
      some (none, ⟨none, [x]⟩) := by
  refine ⟨?_, rfl⟩
  simp [New, Seq.Range, emitAll, observe, hstop]

/-- C7, at a concrete input: the list [1, 2, 3] of TestSeq and a consumer that
always answers false. -/
theorem Range_early_stop_witness :
    (New (emitAll [1, 2, 3]) []).1.Range (observe (fun _ _ => false)) ⟨some "old", []⟩ =
      some ((), ⟨none, [1]⟩) ∧
    (New (emitAll [1, 2, 3]) []).1.Error (⟨none, [1]⟩ : Heap (List Nat) String) =
      some (none, ⟨none, [1]⟩) :=
  Range_early_stop 1 [2, 3] (fun _ _ => false) (some "old") rfl

/-- The wrapper of the specification is the consumer itself. -/
theorem emitWrapper_eq {σ E V : Type} (step : V → Go σ E Bool) : emitWrapper step = step := by
  funext item h
  unfold emitWrapper
  cases step item h with
  | none => rfl
  | some r => rfl

/-- C8: Range relays and stores. Range as coded equals the drive operation as
the specification words it; with the consumer instrumented to record every
call made to it (argument and boolean handed back), Range returns exactly when
the direct call f(step) does, leaves the same captured variables, hence the
same recorded sequence of calls, and what it stores is the value f(step)
returned. -/
theorem Range_relay {τ E V : Type} (s : Seq (τ × List (V × Bool)) E V)
    (step : V → Go (τ × List (V × Bool)) E Bool) (h : Heap (τ × List (V × Bool)) E) :
    s.Range step h = s.RangeSpec step h ∧
    (s.Range (traced step) h).map (fun r => r.2.env) =
      (s.f (traced step) h).map (fun r => r.2.env) ∧
    (s.Range (traced step) h).map (fun r => r.2.err) =
      (s.f (traced step) h).map (fun r => r.1) := by
  refine ⟨?_, ?_, ?_⟩
  · simp only [Seq.RangeSpec, emitWrapper_eq, Seq.Range]
  · unfold Seq.Range
    cases s.f (traced step) h with
    | none => rfl
    | some r => rfl
  · unfold Seq.Range
    cases s.f (traced step) h with
    | none => rfl
    | some r => rfl

/-- The recorded calls of a drive: the list producer over [1, 2, 3], driven by
a consumer that goes on only below 2, calls it with 1 (answer true) and with 2
(answer false), and no more. -/
theorem Range_relay_example :
    (New (emitAll [1, 2, 3]) ((), [])).1.Range
        (traced (fun v h => some (decide (v < 2), h))) ⟨some "old", ((), [])⟩ =
      some ((), ⟨none, ((), [(1, true), (2, false)])⟩) := by
  decide

/-- The map producer driven with the storing loop body performs the
assignments res[k] = v one after the other, in the order of the iteration,
and returns nil. -/
theorem emitAll2_store {E K V : Type} [DecidableEq K] (ps : List (K × V))
    (m0 : K → Option V) (e0 : error E) :
    emitAll2 ps store (⟨e0, m0⟩ : Heap (K → Option V) E) =
      some (none, ⟨e0, ps.foldl (fun (m : K → Option V) (p : K × V) => Function.update m p.1 (some p.2)) m0⟩) := by
  induction ps generalizing m0 with
  | nil => simp [emitAll2]
  | cons p ps ih =>
    obtain ⟨k, v⟩ := p
    simp [emitAll2, store, ih]

/-- Lookup in the map built by successive assignments of pairs with pairwise
distinct keys: a key holds the value it is paired with, and a key of no pair
keeps the value it had. -/
theorem foldl_update_lookup {K V : Type} [DecidableEq K] (ps : List (K × V))
    (m0 : K → Option V) (hk : (ps.map Prod.fst).Nodup) (k : K) (v : V) :
    (ps.foldl (fun (m : K → Option V) (p : K × V) => Function.update m p.1 (some p.2)) m0) k = some v ↔
      (k, v) ∈ ps ∨ (k ∉ ps.map Prod.fst ∧ m0 k = some v) := by
  induction ps generalizing m0 with
  | nil => simp
  | cons p ps ih =>
    obtain ⟨k1, v1⟩ := p
    simp only [List.map_cons, List.nodup_cons] at hk
    obtain ⟨hk1, hnd⟩ := hk
    simp only [List.foldl_cons, ih _ hnd, List.mem_cons, Prod.mk.injEq, List.map_cons,
      not_or]
    by_cases hkk : k = k1
    · subst hkk
      have hnot : (k, v) ∉ ps := fun hm => hk1 (List.mem_map_of_mem Prod.fst hm)
      simp [hnot, hk1, eq_comm]
    · simp [hkk, Function.update_noteq hkk]

/-- C9: Seq2 is the pair-valued twin of Seq. New2(g) is New of the uncurried g
(same entity, same fresh heap), and driving a Seq2 with step2 or reading its
Error() is, result and heap alike, driving or reading the Seq over pairs built
from the uncurried producer, with the uncurried step2; so emissions and error
agree. And when a producer emits, in any order ps1, the pairs of a list ps
with pairwise distinct keys and returns nil, the consumer that stores each pair
into a map, starting from the empty map, ends with the map that holds exactly
the pairs of ps, and Error() is nil. -/
theorem Seq2_twin {σ E K V : Type} [DecidableEq K]
    (g : (K → V → Go σ E Bool) → Go σ E (error E)) (env : σ)
    (step2 : K → V → Go σ E Bool) (h : Heap σ E) (ps ps1 : List (K × V)) (e0 : error E)
    (hkeys : (ps.map Prod.fst).Nodup) (horder : ps1.Perm ps) :
    ((New2 g env).1.uncurried = (New (fun yield => g (fun k v => yield (k, v))) env).1 ∧
      (New2 g env).2 = (New (fun yield => g (fun k v => yield (k, v))) env).2 ∧
      (New2 g env).1.Range step2 h =
        (New2 g env).1.uncurried.Range (fun p => step2 p.1 p.2) h ∧
      (New2 g env).1.Error h = (New2 g env).1.uncurried.Error h) ∧
    ∃ m : K → Option V,
      (New2 (emitAll2 ps1) emptyMap).1.Range store ⟨e0, emptyMap⟩ = some ((), ⟨none, m⟩) ∧
      (New2 (emitAll2 ps1) emptyMap).1.Error (⟨none, m⟩ : Heap (K → Option V) E) =
        some (none, ⟨none, m⟩) ∧
      ∀ k v, m k = some v ↔ (k, v) ∈ ps := by
  refine ⟨⟨rfl, rfl, rfl, rfl⟩,
    ps1.foldl (fun (m : K → Option V) (p : K × V) => Function.update m p.1 (some p.2)) emptyMap,
    ?_, rfl, ?_⟩
  · simp [New2, Seq2.Range, emitAll2_store]
  · intro k v
    have hnd : (ps1.map Prod.fst).Nodup := (horder.map Prod.fst).nodup_iff.mpr hkeys
    rw [foldl_update_lookup ps1 _ hnd k v]
    simp [horder.mem_iff, emptyMap]

/-- C9, on TestSeq2 case 0: the pairs one, two, three, visited in the order two,
three, one. -/
theorem Seq2_twin_witness :
    ∃ m : String → Option Int,
      testSeq2.1.Range store ⟨some "old", emptyMap⟩ = some ((), ⟨none, m⟩) ∧
      testSeq2.1.Error ⟨none, m⟩ = some (none, ⟨none, m⟩) ∧
      ∀ k v, m k = some v ↔ (k, v) ∈ testPairs :=
  (Seq2_twin (emitAll2 [("two", 2), ("three", 3), ("one", 1)]) emptyMap store testSeq2.2
    testPairs [("two", 2), ("three", 3), ("one", 1)] (some "old")
    (by decide) (by decide)).2

/-- The methods with the object passed by value agree with the methods on the
heap: same return status, same stored error and same captured variables
afterwards, and Error() returns the same value. -/
theorem SeqValue.agrees {σ E K V : Type} (v : SeqValue σ E V) (yield : V → Go σ E Bool)
    (v2 : Seq2Value σ E K V) (yield2 : K → V → Go σ E Bool) (env : σ) :
    ((v.Range yield env).map (fun r => (⟨r.1.err, r.2⟩ : Heap σ E)) =
        ((Seq.mk v.f).Range yield ⟨v.err, env⟩).map (fun r => r.2) ∧
      (Seq.mk v.f).Error ⟨v.err, env⟩ = some (v.Error.1, ⟨v.Error.2.err, env⟩)) ∧
    ((v2.Range yield2 env).map (fun r => (⟨r.1.err, r.2⟩ : Heap σ E)) =
        ((Seq2.mk v2.f).Range yield2 ⟨v2.err, env⟩).map (fun r => r.2) ∧
      (Seq2.mk v2.f).Error ⟨v2.err, env⟩ = some (v2.Error.1, ⟨v2.Error.2.err, env⟩)) := by
  refine ⟨⟨?_, rfl⟩, ?_, rfl⟩
  · simp only [SeqValue.Range, Seq.Range]
    cases v.f yield ⟨v.err, env⟩ with
    | none => rfl
    | some r => rfl
  · simp only [Seq2Value.Range, Seq2.Range]
    cases v2.f yield2 ⟨v2.err, env⟩ with
    | none => rfl
    | some r => rfl

/-- C10: frame. On the heap: Error() returns the stored error and leaves the
heap as it was, so a second Error() returns the same value, and a Range that
returns leaves the heap the producer call left, but for the stored error. On
the object, fields f and err both being part of the value the methods hand
back: Error() hands back the object it was given, producer and stored error
alike; a Range that returns hands back an object with the producer it was
given, its field err set to the outcome of the producer call, and captured
variables as the producer call left them. So Range writes field err and
nothing else, and Error() writes nothing. The same holds of Seq2. -/
theorem frame {σ E K V : Type} (s : Seq σ E V) (yield : V → Go σ E Bool)
    (s2 : Seq2 σ E K V) (yield2 : K → V → Go σ E Bool) (h : Heap σ E)
    (v : SeqValue σ E V) (v2 : Seq2Value σ E K V) (env : σ) :
    ((s.Error h = some (h.err, h) ∧ (s.Error h).bind (fun r => s.Error r.2) = s.Error h) ∧
      (∀ r ∈ s.Range yield h, ∃ e h1, s.f yield h = some (e, h1) ∧
        r.2 = { h1 with err := e }) ∧
      (v.Error = (v.err, v) ∧ v.Error.2.f = v.f ∧ v.Error.2.err = v.err ∧
        v.Error.2.Error.1 = v.Error.1) ∧
      (∀ r ∈ v.Range yield env, r.1.f = v.f ∧
        ∃ e h1, v.f yield ⟨v.err, env⟩ = some (e, h1) ∧ r.1.err = e ∧ r.2 = h1.env)) ∧
    ((s2.Error h = some (h.err, h) ∧
        (s2.Error h).bind (fun r => s2.Error r.2) = s2.Error h) ∧
      (∀ r ∈ s2.Range yield2 h, ∃ e h1, s2.f yield2 h = some (e, h1) ∧
        r.2 = { h1 with err := e }) ∧
      (v2.Error = (v2.err, v2) ∧ v2.Error.2.f = v2.f ∧ v2.Error.2.err = v2.err ∧
        v2.Error.2.Error.1 = v2.Error.1) ∧
      (∀ r ∈ v2.Range yield2 env, r.1.f = v2.f ∧
        ∃ e h1, v2.f yield2 ⟨v2.err, env⟩ = some (e, h1) ∧ r.1.err = e ∧ r.2 = h1.env)) := by
  refine ⟨⟨⟨rfl, rfl⟩, ?_, ⟨rfl, rfl, rfl, rfl⟩, ?_⟩, ⟨⟨rfl, rfl⟩, ?_, ⟨rfl, rfl, rfl, rfl⟩, ?_⟩⟩
  · intro r hr
    unfold Seq.Range at hr
    cases hf : s.f yield h with
    | none => simp [hf] at hr
    | some p =>
      obtain ⟨e, h1⟩ := p
      simp only [hf, Option.mem_def, Option.some.injEq] at hr
      subst hr
      exact ⟨e, h1, rfl, rfl⟩
  · intro r hr
    unfold SeqValue.Range at hr
    cases hf : v.f yield ⟨v.err, env⟩ with
    | none => simp [hf] at hr
    | some p =>
      obtain ⟨e, h1⟩ := p
      simp only [hf, Option.mem_def, Option.some.injEq] at hr
      subst hr
      exact ⟨rfl, e, h1, rfl, rfl, rfl⟩
  · intro r hr
    unfold Seq2.Range at hr
    cases hf : s2.f yield2 h with
    | none => simp [hf] at hr
    | some p =>
      obtain ⟨e, h1⟩ := p
      simp only [hf, Option.mem_def, Option.some.injEq] at hr
      subst hr
      exact ⟨e, h1, rfl, rfl⟩
  · intro r hr
    unfold Seq2Value.Range at hr
    cases hf : v2.f yield2 ⟨v2.err, env⟩ with
    | none => simp [hf] at hr
    | some p =>
      obtain ⟨e, h1⟩ := p
      simp only [hf, Option.mem_def, Option.some.injEq] at hr
      subst hr
      exact ⟨rfl, e, h1, rfl, rfl, rfl⟩

/-- The frame on ExampleSeq, object passed by value with an older failure
stored: Range hands back the error of the drive in field err, next to the
items consumed. -/
theorem frame_example :
    ((SeqValue.mk (exampleProducer [1, 2, -1, 3]) (some "old")).Range collect []).map
        (fun r => (r.1.err, r.2)) =
      some (some "negative value at index 2: -1", [1, 2]) := by
  decide

/-- The non-cooperative producer hands every element to the recording
consumer, whatever the consumer answers, and returns o. -/
theorem emitIgnoring_observe {E V : Type} (xs acc : List V) (o e0 : error E)
    (answer : List V → V → Bool) :
    emitIgnoring xs o (observe answer) (⟨e0, acc⟩ : Heap (List V) E) =
      some (o, ⟨e0, acc ++ xs⟩) := by
  induction xs generalizing acc with
  | nil => simp [emitIgnoring]
  | cons x xs ih => simp [emitIgnoring, observe, ih]

/-- The non-cooperative producer driven by the consumer that always answers
false and has every call recorded: each element is handed over and false is
handed back each time. -/
theorem emitIgnoring_traced {E V : Type} (xs : List V) (tr : List (V × Bool)) (o e0 : error E) :
    emitIgnoring xs o (traced (fun _ h => some (false, h)))
        (⟨e0, ((), tr)⟩ : Heap (Unit × List (V × Bool)) E) =
      some (o, ⟨e0, ((), tr ++ xs.map (fun x => (x, false)))⟩) := by
  induction xs generalizing tr with
  | nil => simp [emitIgnoring]
  | cons x xs ih => simp [emitIgnoring, traced, ih]

/-- C12: Range does not enforce early stop. The producer that calls yield on
every element of xs, ignoring what yield returns, and then returns o, driven
by a direct call of Range with a consumer that records each call and answers
as it likes (false included, on any or all items): Range returns, the consumer
has received every element of xs, in order, and Error() is o. With the
consumer that always answers false, the recorded calls show false handed back
to the producer for each element, and nothing else happens to it. -/
theorem Range_no_early_stop {E V : Type} (xs : List V) (o e0 : error E)
    (answer : List V → V → Bool) :
    (New (emitIgnoring xs o) []).1.Range (observe answer) ⟨e0, []⟩ = some ((), ⟨o, xs⟩) ∧
    (New (emitIgnoring xs o) []).1.Error (⟨o, xs⟩ : Heap (List V) E) = some (o, ⟨o, xs⟩) ∧
    (New (emitIgnoring xs o) ((), [])).1.Range (traced (fun _ h => some (false, h)))
        ⟨e0, ((), [])⟩ =
      some ((), ⟨o, ((), xs.map (fun x => (x, false)))⟩) := by
  refine ⟨?_, rfl, ?_⟩
  · simp [New, Seq.Range, emitIgnoring_observe]
  · simp [New, Seq.Range, emitIgnoring_traced]

/-- The non-cooperative producer over [1, 2, 3] with outcome "late", driven by a
consumer that always answers false: all three items arrive. -/
theorem Range_no_early_stop_example :
    (New (emitIgnoring [1, 2, 3] (some "late")) []).1.Range (observe (fun _ _ => false))
        ⟨some "old", []⟩ =
      some ((), ⟨some "late", [1, 2, 3]⟩) := by
  decide

/-- The cooperative list producer leaves the counter alone when the consumer
does. -/
theorem emitAll_leavesCount {τ E V : Type} (xs : List V) (yield : V → Go (τ × Nat) E Bool)
    (hy : ∀ v, LeavesCount (yield v)) : LeavesCount (emitAll xs yield) := by
  induction xs with
  | nil =>
    intro h a h1 hr
    simp only [emitAll, Option.some.injEq, Prod.mk.injEq] at hr
    rw [← hr.2]
  | cons x xs ih =>
    intro h a h1 hr
    simp only [emitAll] at hr
    cases hx : yield x h with
    | none => simp [hx] at hr
    | some r =>
      obtain ⟨b, h0⟩ := r
      have h0c := hy x h b h0 hx
      cases b with
      | true =>
        simp only [hx] at hr
        rw [ih h0 a h1 hr, h0c]
      | false =>
        simp only [hx, Option.some.injEq, Prod.mk.injEq] at hr
        rw [← hr.2, h0c]

/-- The map producer leaves the counter alone when the consumer does. -/
theorem emitAll2_leavesCount {τ E K V : Type} (ps : List (K × V))
    (yield : K → V → Go (τ × Nat) E Bool) (hy : ∀ k v, LeavesCount (yield k v)) :
    LeavesCount (emitAll2 ps yield) := by
  induction ps with
  | nil =>
    intro h a h1 hr
    simp only [emitAll2, Option.some.injEq, Prod.mk.injEq] at hr
    rw [← hr.2]
  | cons p ps ih =>
    obtain ⟨k, v⟩ := p
    intro h a h1 hr
    simp only [emitAll2] at hr
    cases hx : yield k v h with
    | none => simp [hx] at hr
    | some r =>
      obtain ⟨b, h0⟩ := r
      have h0c := hy k v h b h0 hx
      cases b with
      | true =>
        simp only [hx] at hr
        rw [ih h0 a h1 hr, h0c]
      | false =>
        simp only [hx, Option.some.injEq, Prod.mk.injEq] at hr
        rw [← hr.2, h0c]

/-- One operation on a Seq with a counted producer: a Range call that returns
has raised the counter by one, a call of Error() by nothing. -/
theorem perform_count {τ E V : Type}
    (f : (V → Go (τ × Nat) E Bool) → Go (τ × Nat) E (error E))
    (hf : ∀ yield, (∀ v, LeavesCount (yield v)) → LeavesCount (f yield))
    (op : Op (τ × Nat) E V) (hop : ∀ yield, op = Op.range yield → ∀ v, LeavesCount (yield v))
    (h h1 : Heap (τ × Nat) E) (u : Unit)
    (hr : (Seq.mk (counted f)).perform op h = some (u, h1)) :
    h1.env.2 = h.env.2 + Op.ranges [op] := by
  cases op with
  | range yield =>
    simp only [Seq.perform, Seq.Range, counted] at hr
    cases hc : f yield { h with env := (h.env.1, h.env.2 + 1) } with
    | none => simp [hc] at hr
    | some r =>
      obtain ⟨e, h0⟩ := r
      simp only [hc, Option.some.injEq, Prod.mk.injEq, true_and] at hr
      have := hf yield (hop yield rfl) _ e h0 hc
      rw [← hr]
      simpa [Op.ranges] using this
  | error =>
    simp only [Seq.perform, Seq.Error, Option.some.injEq, Prod.mk.injEq, true_and] at hr
    rw [← hr]
    simp [Op.ranges]

/-- Operations on a Seq with a counted producer raise the counter by the number
of Range calls among them. -/
theorem performAll_count {τ E V : Type}
    (f : (V → Go (τ × Nat) E Bool) → Go (τ × Nat) E (error E))
    (hf : ∀ yield, (∀ v, LeavesCount (yield v)) → LeavesCount (f yield))
    (ops : List (Op (τ × Nat) E V))
    (hops : ∀ yield, Op.range yield ∈ ops → ∀ v, LeavesCount (yield v))
    (h h1 : Heap (τ × Nat) E) (u : Unit)
    (hr : (Seq.mk (counted f)).performAll ops h = some (u, h1)) :
    h1.env.2 = h.env.2 + Op.ranges ops := by
  induction ops generalizing h with
  | nil =>
    simp only [Seq.performAll, Option.some.injEq, Prod.mk.injEq, true_and] at hr
    rw [← hr]
    simp [Op.ranges]
  | cons op ops ih =>
    simp only [Seq.performAll] at hr
    cases hp : (Seq.mk (counted f)).perform op h with
    | none => simp [hp] at hr
    | some r =>
      obtain ⟨u0, h0⟩ := r
      simp only [hp] at hr
      have h0c := perform_count f hf op
        (fun yield hy => hops yield (by rw [hy]; exact List.mem_cons_self _ _)) h h0 u0 hp
      have := ih (fun yield hy => hops yield (List.mem_cons_of_mem _ hy)) h0 hr
      rw [this, h0c]
      cases op with
      | range yield =>
        simp only [Op.ranges]
        omega
      | error => simp [Op.ranges]

/-- One operation on a Seq2 with a counted producer: a Range call that returns
has raised the counter by one, a call of Error() by nothing. -/
theorem perform2_count {τ E K V : Type}
    (g : (K → V → Go (τ × Nat) E Bool) → Go (τ × Nat) E (error E))
    (hg : ∀ yield, (∀ k v, LeavesCount (yield k v)) → LeavesCount (g yield))
    (op : Op2 (τ × Nat) E K V)
    (hop : ∀ yield, op = Op2.range yield → ∀ k v, LeavesCount (yield k v))
    (h h1 : Heap (τ × Nat) E) (u : Unit)
    (hr : (Seq2.mk (counted2 g)).perform op h = some (u, h1)) :
    h1.env.2 = h.env.2 + Op2.ranges [op] := by
  cases op with
  | range yield =>
    simp only [Seq2.perform, Seq2.Range, counted2] at hr
    cases hc : g yield { h with env := (h.env.1, h.env.2 + 1) } with
    | none => simp [hc] at hr
    | some r =>
      obtain ⟨e, h0⟩ := r
      simp only [hc, Option.some.injEq, Prod.mk.injEq, true_and] at hr
      have := hg yield (hop yield rfl) _ e h0 hc
      rw [← hr]
      simpa [Op2.ranges] using this
  | error =>
    simp only [Seq2.perform, Seq2.Error, Option.some.injEq, Prod.mk.injEq, true_and] at hr
    rw [← hr]
    simp [Op2.ranges]

/-- Operations on a Seq2 with a counted producer raise the counter by the
number of Range calls among them. -/
theorem performAll2_count {τ E K V : Type}
    (g : (K → V → Go (τ × Nat) E Bool) → Go (τ × Nat) E (error E))
    (hg : ∀ yield, (∀ k v, LeavesCount (yield k v)) → LeavesCount (g yield))
    (ops : List (Op2 (τ × Nat) E K V))
    (hops : ∀ yield, Op2.range yield ∈ ops → ∀ k v, LeavesCount (yield k v))
    (h h1 : Heap (τ × Nat) E) (u : Unit)
    (hr : (Seq2.mk (counted2 g)).performAll ops h = some (u, h1)) :
    h1.env.2 = h.env.2 + Op2.ranges ops := by
  induction ops generalizing h with
  | nil =>
    simp only [Seq2.performAll, Option.some.injEq, Prod.mk.injEq, true_and] at hr
    rw [← hr]
    simp [Op2.ranges]
  | cons op ops ih =>
    simp only [Seq2.performAll] at hr
    cases hp : (Seq2.mk (counted2 g)).perform op h with
    | none => simp [hp] at hr
    | some r =>
      obtain ⟨u0, h0⟩ := r
      simp only [hp] at hr
      have h0c := perform2_count g hg op
        (fun yield hy => hops yield (by rw [hy]; exact List.mem_cons_self _ _)) h h0 u0 hp
      have := ih (fun yield hy => hops yield (List.mem_cons_of_mem _ hy)) h0 hr
      rw [this, h0c]
      cases op with
      | range yield =>
        simp only [Op2.ranges]
        omega
      | error => simp [Op2.ranges]

/-- The collecting loop body leaves the counter alone. -/
theorem collectLeft_leavesCount {E V : Type} (v : V) :
    LeavesCount (collectLeft v : Go (List V × Nat) E Bool) := by
  intro h a h1 hr
  simp only [collectLeft, Option.some.injEq, Prod.mk.injEq] at hr
  rw [← hr.2]

/-- The collecting loop body of a Seq2 leaves the counter alone. -/
theorem collectLeft2_leavesCount {E K V : Type} (k : K) (v : V) :
    LeavesCount (collectLeft2 k v : Go (List (K × V) × Nat) E Bool) := by
  intro h a h1 hr
  simp only [collectLeft2, Option.some.injEq, Prod.mk.injEq] at hr
  rw [← hr.2]

/-- C13, amended: the producer is invoked once per Range call and by nothing
else, for callbacks that do not drive the entity themselves. Take a producer
instrumented to count its invocations in a counter that the producer and the
consumers leave alone, as callbacks that make no call of Range on the entity
do, so that the operations listed are all the calls made on the entity. Right
after New or New2 the counter is 0, and after any operations on the entity
that have all returned, calls of Error() and Range in any order, the counter
is the number of Range calls among them: none when the error is only read, n
after n drives. -/
theorem invocations_eq_ranges {τ τ2 E K V : Type}
    (f : (V → Go (τ × Nat) E Bool) → Go (τ × Nat) E (error E))
    (g : (K → V → Go (τ2 × Nat) E Bool) → Go (τ2 × Nat) E (error E)) (env : τ) (env2 : τ2)
    (ops : List (Op (τ × Nat) E V)) (ops2 : List (Op2 (τ2 × Nat) E K V))
    (h1 : Heap (τ × Nat) E) (h2 : Heap (τ2 × Nat) E)
    (hf : ∀ yield, (∀ v, LeavesCount (yield v)) → LeavesCount (f yield))
    (hg : ∀ yield, (∀ k v, LeavesCount (yield k v)) → LeavesCount (g yield))
    (hops : ∀ yield, Op.range yield ∈ ops → ∀ v, LeavesCount (yield v))
    (hops2 : ∀ yield, Op2.range yield ∈ ops2 → ∀ k v, LeavesCount (yield k v))
    (hrun : (New (counted f) (env, 0)).1.performAll ops (New (counted f) (env, 0)).2 =
      some ((), h1))
    (hrun2 : (New2 (counted2 g) (env2, 0)).1.performAll ops2
      (New2 (counted2 g) (env2, 0)).2 = some ((), h2)) :
    (New (counted f) (env, 0)).2.env.2 = 0 ∧ h1.env.2 = Op.ranges ops ∧
    (New2 (counted2 g) (env2, 0)).2.env.2 = 0 ∧ h2.env.2 = Op2.ranges ops2 := by
  refine ⟨rfl, ?_, rfl, ?_⟩
  · have := performAll_count f hf ops hops _ h1 () hrun
    simpa [New] using this
  · have := performAll2_count g hg ops2 hops2 _ h2 () hrun2
    simpa [New2] using this

/-- C13 amended, at a concrete input: Error(), Range, Error(), Range on a Seq over
[1, 2] return and leave the counter at 2; Error(), Range, Error() on the Seq2
over the pairs of TestSeq2 return and leave it at 1. -/
theorem invocations_eq_ranges_witness :
    (sampleSeq.1.performAll sampleOps sampleSeq.2 = some ((), ⟨none, ([1, 2, 1, 2], 2)⟩) ∧
      sampleSeq2.1.performAll sampleOps2 sampleSeq2.2 = some ((), ⟨none, (testPairs, 1)⟩)) ∧
    sampleSeq.2.env.2 = 0 ∧
    (⟨none, ([1, 2, 1, 2], 2)⟩ : Heap (List Int × Nat) String).env.2 = Op.ranges sampleOps ∧
    sampleSeq2.2.env.2 = 0 ∧
    (⟨none, (testPairs, 1)⟩ : Heap (List (String × Int) × Nat) String).env.2 =
      Op2.ranges sampleOps2 :=
  ⟨⟨by decide, by decide⟩,
    invocations_eq_ranges (emitAll [1, 2]) (emitAll2 testPairs) [] [] sampleOps sampleOps2
      ⟨none, ([1, 2, 1, 2], 2)⟩ ⟨none, (testPairs, 1)⟩
      (emitAll_leavesCount [1, 2]) (emitAll2_leavesCount testPairs)
      (fun yield hm => by
        simp only [sampleOps, List.mem_cons, Op.range.injEq, reduceCtorEq, false_or,
          List.mem_singleton, or_self, List.not_mem_nil, or_false] at hm
        subst hm
        exact collectLeft_leavesCount)
      (fun yield hm => by
        simp only [sampleOps2, List.mem_cons, Op2.range.injEq, reduceCtorEq, false_or,
          List.mem_singleton, or_self, List.not_mem_nil, or_false] at hm
        subst hm
        exact collectLeft2_leavesCount)
      (by decide) (by decide)⟩

/-- The producer of nestSeq is nestBody with the entity itself for s: the nested
call s.Range(yield) made by the producer is a drive of the same entity. -/
theorem nestSeq_self : nestSeq.f = nestBody nestSeq := by
  funext yield h
  by_cases hn : h.env.nested = true
  · simp [nestSeq, nestBody, hn]
  · simp [nestSeq, nestBody, hn, Seq.Range, Seq.Error]

/-- C11 fails for a producer that drives its own entity. The entity is fresh
from New, so the stored error is nil when Range is called; the producer calls
s.Range(yield) from inside, then s.Error(), before it returns: that call of
Error() returns "inner", the outcome of the nested drive, not nil. Range then
returns with the outcome of the outer producer call, nil, stored. -/
theorem stale_read_nested_counterexample :
    (New nestSeq.f ⟨false, none⟩).1.f = nestBody (New nestSeq.f ⟨false, none⟩).1 ∧
    (New nestSeq.f ⟨false, none⟩).1.Error (New nestSeq.f ⟨false, none⟩).2 =
      some (none, (New nestSeq.f ⟨false, none⟩).2) ∧
    (New nestSeq.f ⟨false, none⟩).1.Range (always true) (New nestSeq.f ⟨false, none⟩).2 =
      some ((), ⟨none, ⟨true, some "inner"⟩⟩) ∧
    (⟨none, ⟨true, some "inner"⟩⟩ : Heap NestEnv String).env.seen ≠ none :=
  ⟨nestSeq_self, rfl, by decide, by decide⟩

/-- A transition system calls Error() on the one entity of the heap, whichever
pointer it captured. -/
theorem runFor_self {σ E V W α S : Type} (s1 s2 : Seq σ E W) (step : S → Step σ E V α S)
    (yield : V → Go σ E Bool) (n : Nat) (st : S) :
    runFor s1 step yield n st = runFor s2 step yield n st := by
  induction n generalizing st with
  | zero => rfl
  | succ n ih =>
    funext h
    simp only [runFor, Seq.Error, ih]

/-- The producer of TestSeq case 2 is the Go function its transition system
stands for, panic included. -/
theorem flaky_runFor (s : Seq RunEnv String Int) (yield : Int → Go RunEnv String Bool) :
    runFor s flakyStep yield 3 FlakyAt.start = flaky yield := by
  funext h
  show runFor s flakyStep yield 2
      (if h.env.run + 1 = 0 then FlakyAt.fail
        else if h.env.run + 1 = 1 then FlakyAt.item else FlakyAt.boom)
      { h with env := { h.env with run := h.env.run + 1 } } = flaky yield h
  unfold flaky
  by_cases h0 : h.env.run + 1 = 0
  · rw [if_pos h0, if_pos h0]
    rfl
  · rw [if_neg h0, if_neg h0]
    by_cases h1 : h.env.run + 1 = 1
    · rw [if_pos h1, if_pos h1]
      simp only [runFor, flakyStep]
      split <;> simp_all
    · rw [if_neg h1, if_neg h1]
      rfl

/-- A run that returns within n steps returns with the heap it stands at after
n steps. -/
theorem runFor_heapAfter {σ E V W α S : Type} (s : Seq σ E W) (step : S → Step σ E V α S)
    (yield : V → Go σ E Bool) (n : Nat) (st : S) (h h1 : Heap σ E) (a : α)
    (hr : runFor s step yield n st h = some (a, h1)) :
    heapAfter s step yield n st h = h1 := by
  induction n generalizing st h with
  | zero => simp [runFor] at hr
  | succ n ih =>
    simp only [runFor] at hr
    simp only [heapAfter]
    cases hstep : step st with
    | ret a0 =>
      simp only [hstep, Option.some.injEq, Prod.mk.injEq] at hr
      exact hr.2
    | crash => simp [hstep] at hr
    | emit v next =>
      simp only [hstep] at hr
      cases hv : yield v h with
      | none => simp [hv] at hr
      | some r =>
        obtain ⟨b, h2⟩ := r
        simp only [hv] at hr
        simp only [hv]
        exact ih (next b) h2 hr
    | readError next =>
      simp only [hstep, Seq.Error] at hr
      exact ih _ _ hr
    | modify next =>
      simp only [hstep] at hr
      exact ih _ _ hr

/-- An instrumented transition system that starts with the stored error e0 and
readings all equal to e0, and whose yield keeps it so, stands at every moment
of its run, returned or not, at a heap with the stored error e0 and readings
all equal to e0. -/
theorem heapAfter_stale {σ E V W α S : Type} (e0 : error E)
    (s : Seq (σ × List (error E)) E W) (step : S → Step σ E V α S)
    (yield : V → Go (σ × List (error E)) E Bool)
    (hy : ∀ v h b h1, Stale e0 h → yield v h = some (b, h1) → Stale e0 h1)
    (n : Nat) (st : S) (h : Heap (σ × List (error E)) E) (hi : Stale e0 h) :
    Stale e0 (heapAfter s (fun st => (step st).logged) yield n st h) := by
  induction n generalizing st h with
  | zero => exact hi
  | succ n ih =>
    simp only [heapAfter]
    cases hstep : step st with
    | ret a0 => exact hi
    | crash => exact hi
    | emit v next =>
      simp only [Step.logged]
      cases hv : yield v h with
      | none => exact hi
      | some r =>
        obtain ⟨b, h2⟩ := r
        exact ih (next b) h2 (hy v h b h2 hi hv)
    | readError next =>
      simp only [Step.logged, Seq.Error]
      refine ih (next h.err h.env.1).2
        { h with env := ((next h.err h.env.1).1, h.env.2 ++ [h.err]) } ⟨hi.1, ?_⟩
      intro r hm
      simp only [List.mem_append, List.mem_singleton] at hm
      rcases hm with hm | hm
      · exact hi.2 r hm
      · rw [hm]
        exact hi.1
    | modify next =>
      simp only [Step.logged]
      exact ih (next h.env.1).2 { h with env := ((next h.env.1).1, h.env.2) } ⟨hi.1, hi.2⟩

/-- An instrumented transition system that starts with the stored error e0 and
readings all equal to e0, and whose yield keeps it so, leaves the stored error
e0 and readings all equal to e0 whenever it returns. -/
theorem runFor_stale {σ E V W α S : Type} (e0 : error E) (s : Seq (σ × List (error E)) E W)
    (step : S → Step σ E V α S) (yield : V → Go (σ × List (error E)) E Bool)
    (hy : ∀ v h b h1, Stale e0 h → yield v h = some (b, h1) → Stale e0 h1)
    (n : Nat) (st : S) (h h1 : Heap (σ × List (error E)) E) (a : α) (hi : Stale e0 h)
    (hr : runFor s (fun st => (step st).logged) yield n st h = some (a, h1)) :
    Stale e0 h1 := by
  rw [← runFor_heapAfter s _ yield n st h h1 a hr]
  exact heapAfter_stale e0 s step yield hy n st h hi

/-- C11, amended: stale read during a drive, for callbacks that do not drive
the entity themselves. Let the producer and the consumer be any transition
systems of steps that return, panic, call yield, call Error() on the entity
or access captured variables (loops, unbounded ones included, but no call of
Range), instrumented to record what each call of Error() returns, and cut off
after any numbers n and m of steps; let the stored error be e0 when Range is
called. At every moment of the producer call, whether it returns or not, and
at every moment of a consumer call made then, the stored error is e0 and
every reading recorded is e0. And whenever Range returns, the producer call
has returned, with outcome o say; the stored error was still e0 at that
moment and every reading recorded is e0; and Range has changed nothing but
the stored error, now o. -/
theorem stale_read {σ E V S T : Type} (pstep : S → Step σ E V (error E) S) (pstart : S)
    (n : Nat) (cstep : T → Step σ E Empty Bool T) (cstart : V → T) (m : Nat)
    (s : Seq (σ × List (error E)) E V)
    (hs : s.f = fun yield => runFor s (fun st => (pstep st).logged) yield n pstart)
    (e0 : error E) (env : σ) :
    (∀ k, Stale e0 (heapAfter s (fun st => (pstep st).logged)
      (consumerFor s (fun st => (cstep st).logged) cstart m) k pstart ⟨e0, (env, [])⟩)) ∧
    (∀ v h k, Stale e0 h →
      Stale e0 (heapAfter s (fun st => (cstep st).logged) (fun x => nomatch x) k
        (cstart v) h)) ∧
    (∀ h2, s.Range (consumerFor s (fun st => (cstep st).logged) cstart m) ⟨e0, (env, [])⟩ =
        some ((), h2) →
      ∃ o h1, s.f (consumerFor s (fun st => (cstep st).logged) cstart m) ⟨e0, (env, [])⟩ =
          some (o, h1) ∧
        h1.err = e0 ∧ (∀ r ∈ h1.env.2, r = e0) ∧ h2 = { h1 with err := o }) := by
  have hc : ∀ v h b h3, Stale e0 h →
      consumerFor s (fun st => (cstep st).logged) cstart m v h = some (b, h3) → Stale e0 h3 :=
    fun v h b h3 hi hv =>
      runFor_stale e0 s cstep (fun x => nomatch x) (fun x => nomatch x) m (cstart v) h h3 b hi hv
  have h0 : Stale e0 (⟨e0, (env, [])⟩ : Heap (σ × List (error E)) E) :=
    ⟨rfl, fun r hm => by simp at hm⟩
  refine ⟨fun k => heapAfter_stale e0 s pstep _ hc k pstart _ h0,
    fun v h k hi => heapAfter_stale e0 s cstep _ (fun x => nomatch x) k (cstart v) h hi, ?_⟩
  intro h2 hr
  obtain ⟨o, h1, ho, rfl⟩ := (Seq.Range_eq_some s _ _ h2 ()).1 hr
  have ho2 := ho
  rw [hs] at ho2
  have hi1 := runFor_stale e0 s pstep _ hc n pstart _ h1 o h0 ho2
  exact ⟨o, h1, ho, hi1.1, hi1.2, rfl⟩

/-- C11 amended, at a concrete input: the stored error is "old"; the unbounded
generator reads Error() before each of the items 0, 1, 2 and returns "new" when
the consumer, which reads Error() too, stops it at 2; all six readings are
"old", and Range stores "new". -/
theorem stale_read_witness :
    probeSeq.Range (consumerFor probeSeq (fun st => (askStep st).logged) AskAt.enter 3)
        ⟨some "old", ((), [])⟩ =
      some ((), ⟨some "new",
        ((), [some "old", some "old", some "old", some "old", some "old", some "old"])⟩) ∧
    ∃ o h1, probeSeq.f (consumerFor probeSeq (fun st => (askStep st).logged) AskAt.enter 3)
        ⟨some "old", ((), [])⟩ = some (o, h1) ∧
      h1.err = some "old" ∧ (∀ r ∈ h1.env.2, r = some "old") ∧
      (⟨some "new",
        ((), [some "old", some "old", some "old", some "old", some "old", some "old"])⟩ :
          Heap (Unit × List (error String)) String) = { h1 with err := o } :=
  ⟨by decide,
    (stale_read genStep (GenAt.read 0) 10 askStep AskAt.enter 3 probeSeq
      (funext fun yield =>
        runFor_self _ probeSeq (fun st => (genStep st).logged) yield 10 (GenAt.read 0))
      (some "old") ()).2.2
      ⟨some "new", ((), [some "old", some "old", some "old", some "old", some "old", some "old"])⟩
      (by decide)⟩

/-- A producer call that has not returned: the unbounded generator of probeSeq
cut off after 3 steps has read Error() before item 0 and before item 1, and the
consumer has read it once in between; the call has not returned, and the three
readings are "old". -/
theorem stale_read_cut_example :
    runFor probeSeq (fun st => (genStep st).logged)
        (consumerFor probeSeq (fun st => (askStep st).logged) AskAt.enter 3) 3 (GenAt.read 0)
        ⟨some "old", ((), [])⟩ = none ∧
    heapAfter probeSeq (fun st => (genStep st).logged)
        (consumerFor probeSeq (fun st => (askStep st).logged) AskAt.enter 3) 3 (GenAt.read 0)
        ⟨some "old", ((), [])⟩ =
      ⟨some "old", ((), [some "old", some "old", some "old"])⟩ := by
  decide

/-- The producer of nestCounted is nestAgain, counted, with the entity itself
for s: the nested call s.Range(yield) is a drive of the same entity. -/
theorem nestCounted_self : nestCounted.f = counted (nestAgain nestCounted) := by
  funext yield h
  by_cases hn : h.env.1 = true
  · simp [nestCounted, nestAgain, counted, hn]
  · simp [nestCounted, nestAgain, counted, hn, Seq.Range]

/-- C13 fails for a producer that drives its own entity. On a fresh entity whose
producer counts its invocations, one Range call is performed, with a consumer
that does nothing; the producer calls s.Range(yield) from inside, so it is
invoked twice: the counter is 2 after one listed Range call. -/
theorem invocations_nested_counterexample :
    (New nestCounted.f (false, 0)).1.f = counted (nestAgain (New nestCounted.f (false, 0)).1) ∧
    (New nestCounted.f (false, 0)).1.performAll oneDrive (New nestCounted.f (false, 0)).2 =
      some ((), ⟨none, (true, 2)⟩) ∧
    Op.ranges oneDrive = 1 ∧
    (⟨none, (true, 2)⟩ : Heap (Bool × Nat) String).env.2 ≠ Op.ranges oneDrive :=
  ⟨nestCounted_self, by decide, rfl, by decide⟩

end Erriter
